import Mathlib

/-!
Verification development for the CRM_rastishka Scheduling & Ledger Engine.

The definitions below are a shallow embedding of the program's core:
* the SQL schema and triggers in
  `supabase/migrations/20251217141000_business_module.sql` (appointments with
  the two GiST exclusion constraints, transactions with the
  `unique(appointment_id, type)` constraint, and the
  `handle_appointment_completed_charge` trigger),
* the capability predicates and row-level-security policies in
  `supabase/migrations/20251217123000_timeline_events.sql` and the base schema,
* the client-side calendar/finance logic in
  `src/components/business/ServicesManager.tsx` (`buildOccurrences`, the
  recurring-series insert loop of `upsertMutation`, and the balance
  computation of `FinanceManager`).

Timestamps are modelled as whole minutes since the Unix epoch: every
timestamp handled by the calendar UI comes from a `datetime-local` input or a
date input, so it has zero seconds, and the JavaScript code only ever reads
year/month/day/hours/minutes of these values.  Day numbers are
`t / 1440`, the JavaScript `getDay()` weekday of an epoch day `d` is
`(d + 4) % 7` since day 0 (1970-01-01) was a Thursday.
-/

namespace CRM

abbrev Id := Nat

/-- `public.user_role` enum (base schema plus the later `manager` value). -/
inductive UserRole where
  | admin
  | therapist
  | parent
  | manager
deriving DecidableEq

/-- `public.appointment_status` enum. -/
inductive AppointmentStatus where
  | pending
  | confirmed
  | canceled
  | completed
  | no_show
deriving DecidableEq

/-- `public.transaction_type` enum. -/
inductive TransactionType where
  | charge
  | payment
deriving DecidableEq

/-- A row of `public.profiles` (the fields the engine reads). -/
structure Profile where
  id : Id
  fullName : String
  role : UserRole
deriving DecidableEq

/-- A row of `public.children` (the fields the engine reads). -/
structure Child where
  id : Id
  name : String
  parentId : Option Id
deriving DecidableEq

/-- A row of `public.therapist_children` (active care assignment). -/
structure TherapistChild where
  childId : Id
  therapistId : Id
deriving DecidableEq

/-- A row of `public.services` (the fields the engine reads). -/
structure Service where
  id : Id
  name : String
  durationMin : Nat
  price : Int
deriving DecidableEq

/-- A row of `public.appointments`. -/
structure Appointment where
  id : Id
  childId : Id
  specialistId : Id
  serviceId : Id
  startTime : Nat
  endTime : Nat
  status : AppointmentStatus
  notes : Option String
  isRecurring : Bool
  recurrenceGroupId : Option Id
  createdBy : Option Id
deriving DecidableEq

/-- A row of `public.transactions`. -/
structure Transaction where
  id : Id
  childId : Id
  appointmentId : Option Id
  amount : Int
  txType : TransactionType
  date : Nat
  description : String
  createdBy : Option Id
deriving DecidableEq

/-- The durable state the engine operates on. -/
structure DB where
  profiles : List Profile
  children : List Child
  therapistChildren : List TherapistChild
  services : List Service
  appointments : List Appointment
  transactions : List Transaction
deriving DecidableEq

/-- Errors surfaced by the backing store. `conflict` is Postgres 23P01
(exclusion violation), which is exactly what the client's `isConflictError`
recognises. -/
inductive DbErr where
  | conflict
  | checkViolation
  | fkViolation
deriving DecidableEq

/-- `tstzrange(s1,e1,'[)') && tstzrange(s2,e2,'[)')` for nonempty ranges. -/
def rangesOverlap (s1 e1 s2 e2 : Nat) : Bool :=
  decide (s1 < e2) && decide (s2 < e1)

/-- One violating pair of the `appointments_no_overlap_specialist` GiST
exclusion constraint (`specialist_id with =`, range `&&`,
`where status <> 'canceled'`). -/
def conflictsSpecialist (a b : Appointment) : Bool :=
  (a.specialistId == b.specialistId)
    && !(a.status == .canceled) && !(b.status == .canceled)
    && rangesOverlap a.startTime a.endTime b.startTime b.endTime

/-- One violating pair of the `appointments_no_overlap_child` GiST exclusion
constraint. -/
def conflictsChild (a b : Appointment) : Bool :=
  (a.childId == b.childId)
    && !(a.status == .canceled) && !(b.status == .canceled)
    && rangesOverlap a.startTime a.endTime b.startTime b.endTime

/-- Whether writing row `r` alongside `rows` violates either exclusion
constraint. -/
def violatesExclusion (rows : List Appointment) (r : Appointment) : Bool :=
  rows.any (fun b => conflictsSpecialist r b || conflictsChild r b)

/-- Model of `gen_random_uuid()`: an id not occurring in `ids`. -/
def freshId (ids : List Id) : Id :=
  ids.foldr (fun i m => max i m) 0 + 1

/-- Client-supplied columns of an `insert into public.appointments`. -/
structure AppointmentInput where
  childId : Id
  specialistId : Id
  serviceId : Id
  startTime : Nat
  endTime : Nat
  status : AppointmentStatus
  notes : Option String
  isRecurring : Bool
  recurrenceGroupId : Option Id
  createdBy : Option Id
deriving DecidableEq

def mkAppointment (i : AppointmentInput) (id : Id) : Appointment :=
  { id := id
    childId := i.childId
    specialistId := i.specialistId
    serviceId := i.serviceId
    startTime := i.startTime
    endTime := i.endTime
    status := i.status
    notes := i.notes
    isRecurring := i.isRecurring
    recurrenceGroupId := i.recurrenceGroupId
    createdBy := i.createdBy }

/-- `insert into public.appointments`: the `check (end_time > start_time)`
constraint, the three foreign keys, and the two exclusion constraints are
enforced by the store during the write itself.  No trigger touches
`transactions` on insert: `appointments_charge_on_complete` is declared
`after update of status`, not on insert. -/
def insertAppointment (db : DB) (i : AppointmentInput) : Except DbErr DB :=
  if i.endTime ≤ i.startTime then .error .checkViolation
  else if !(db.children.any (fun c => c.id == i.childId)) then .error .fkViolation
  else if !(db.profiles.any (fun p => p.id == i.specialistId)) then .error .fkViolation
  else if !(db.services.any (fun s => s.id == i.serviceId)) then .error .fkViolation
  else
    let row := mkAppointment i (freshId (db.appointments.map (fun a => a.id)))
    if violatesExclusion db.appointments row then .error .conflict
    else .ok { db with appointments := row :: db.appointments }

def findService (db : DB) (sid : Id) : Option Service :=
  db.services.find? (fun s => s.id == sid)

def findChild (db : DB) (cid : Id) : Option Child :=
  db.children.find? (fun c => c.id == cid)

/-- Whether a `charge` transaction for appointment `aid` already exists, i.e.
whether an insert would hit the `unique(appointment_id, type)` constraint. -/
def chargeExists (txs : List Transaction) (aid : Id) : Bool :=
  txs.any (fun t => t.appointmentId == some aid && t.txType == .charge)

def pad2 (n : Nat) : String :=
  if n < 10 then "0" ++ toString n else toString n

/-- Gregorian civil date `(year, month, day)` of an epoch day number
(1970-01-01 is day 0). -/
def civilFromDay (z0 : Nat) : Nat × Nat × Nat :=
  let z := z0 + 719468
  let era := z / 146097
  let doe := z % 146097
  let yoe := (doe - doe / 1460 + doe / 36524 - doe / 146096) / 365
  let y0 := yoe + era * 400
  let doy := doe - (365 * yoe + yoe / 4 - yoe / 100)
  let mp := (5 * doy + 2) / 153
  let d := doy - (153 * mp + 2) / 5 + 1
  let m := if mp < 10 then mp + 3 else mp - 9
  (if m ≤ 2 then y0 + 1 else y0, m, d)

/-- `to_char(t, 'DD.MM.YYYY HH24:MI')`. -/
def formatTimestamp (t : Nat) : String :=
  let c := civilFromDay (t / 1440)
  pad2 c.2.2 ++ "." ++ pad2 c.2.1 ++ "." ++ toString c.1 ++ " "
    ++ pad2 (t % 1440 / 60) ++ ":" ++ pad2 (t % 60)

/-- The `descr` string built by `handle_appointment_completed_charge`. -/
def chargeDescription (svcName childName : Option String) (start : Nat) : String :=
  "Начисление: " ++ svcName.getD "Услуга" ++ " — " ++ childName.getD "ребёнок"
    ++ " (" ++ formatTimestamp start ++ ")"

/-- The charge row built by `handle_appointment_completed_charge` for the
updated appointment `n`: the service price and child name are looked up at
completion time (`coalesce(svc.price, 0)`, fallback names), the date is the
appointment's end time, the description is built from the service name, the
child name and the formatted start time, `created_by` is `auth.uid()`. -/
def completionCharge (db : DB) (uid : Option Id) (n : Appointment) : Transaction :=
  { id := freshId (db.transactions.map (fun t => t.id))
    childId := n.childId
    appointmentId := some n.id
    amount := (((findService db n.serviceId).map (fun s => s.price)).getD 0)
    txType := .charge
    date := n.endTime
    description := chargeDescription ((findService db n.serviceId).map (fun s => s.name)) ((findChild db n.childId).map (fun c => c.name)) n.startTime
    createdBy := uid }

/-- `public.handle_appointment_completed_charge()`: after an update of
`status` from `oldRow` to `newRow`, if the new status is `completed` and
differs from the old one (`old.status is distinct from new.status`), insert
the completion charge with `on conflict (appointment_id, type) do nothing`. -/
def handleAppointmentCompletedCharge (db : DB) (uid : Option Id)
    (oldRow newRow : Appointment) : DB :=
  if newRow.status = .completed ∧ oldRow.status ≠ newRow.status then
    if chargeExists db.transactions newRow.id then db
    else { db with transactions := completionCharge db uid newRow :: db.transactions }
  else db

/-- The columns written by the appointment edit form
(`upsertMutation`, editing branch): it always includes `status` in the
update's SET list, so the `after update of status` trigger fires. -/
structure AppointmentPatch where
  childId : Id
  specialistId : Id
  serviceId : Id
  startTime : Nat
  endTime : Nat
  status : AppointmentStatus
  notes : Option String
deriving DecidableEq

def applyPatch (a : Appointment) (p : AppointmentPatch) : Appointment :=
  { a with
    childId := p.childId
    specialistId := p.specialistId
    serviceId := p.serviceId
    startTime := p.startTime
    endTime := p.endTime
    status := p.status
    notes := p.notes }

/-- `update public.appointments set ... where id = id` followed by the
`appointments_charge_on_complete` trigger.  An update matching no row is a
silent no-op (zero rows updated), exactly as with `supabase.update().eq`.
The constraints are re-checked against all other rows. -/
def updateAppointmentDb (db : DB) (uid : Option Id) (id : Id)
    (p : AppointmentPatch) : Except DbErr DB :=
  match db.appointments.find? (fun a => a.id == id) with
  | none => .ok db
  | some oldRow =>
    let newRow := applyPatch oldRow p
    if newRow.endTime ≤ newRow.startTime then .error .checkViolation
    else if !(db.children.any (fun c => c.id == newRow.childId)) then .error .fkViolation
    else if !(db.profiles.any (fun pr => pr.id == newRow.specialistId)) then .error .fkViolation
    else if !(db.services.any (fun s => s.id == newRow.serviceId)) then .error .fkViolation
    else if violatesExclusion (db.appointments.filter (fun a => !(a.id == id))) newRow
      then .error .conflict
    else
      let db' := { db with
        appointments := db.appointments.map (fun a => if a.id = id then newRow else a) }
      .ok (handleAppointmentCompletedCharge db' uid oldRow newRow)

/-- The patch the edit form submits when only the status field changed:
every other column is written back unchanged. -/
def statusPatch (a : Appointment) (st : AppointmentStatus) : AppointmentPatch :=
  { childId := a.childId
    specialistId := a.specialistId
    serviceId := a.serviceId
    startTime := a.startTime
    endTime := a.endTime
    status := st
    notes := a.notes }

/-- A status-only update: what the edit form performs when only the status
field changed. -/
def setAppointmentStatus (db : DB) (uid : Option Id) (id : Id)
    (st : AppointmentStatus) : Except DbErr DB :=
  match db.appointments.find? (fun a => a.id == id) with
  | none => .ok db
  | some a => updateAppointmentDb db uid id (statusPatch a st)

/-- Drag-and-drop / resize reschedule (`handleEventDrop` /
`handleEventResize`): only `start_time` and `end_time` are in the SET list,
so the `after update of status` trigger does not fire. -/
def rescheduleAppointment (db : DB) (id : Id) (s e : Nat) : Except DbErr DB :=
  match db.appointments.find? (fun a => a.id == id) with
  | none => .ok db
  | some oldRow =>
    let newRow := { oldRow with startTime := s, endTime := e }
    if e ≤ s then .error .checkViolation
    else if violatesExclusion (db.appointments.filter (fun a => !(a.id == id))) newRow
      then .error .conflict
    else .ok { db with
      appointments := db.appointments.map (fun a => if a.id = id then newRow else a) }

/-- `delete from public.appointments where id = id`.  The
`transactions.appointment_id` foreign key is `on delete set null`, so the
charge row survives with a nulled reference. -/
def deleteAppointmentDb (db : DB) (id : Id) : DB :=
  { db with
    appointments := db.appointments.filter (fun a => !(a.id == id))
    transactions := db.transactions.map (fun t =>
      if t.appointmentId = some id then { t with appointmentId := none } else t) }

/-- `addPaymentMutation`: inserts a `payment` transaction with a null
`appointment_id` (so the `unique(appointment_id, type)` constraint never
fires: SQL nulls are pairwise distinct). -/
def insertPayment (db : DB) (uid : Option Id) (childId : Id) (amount : Int)
    (date : Nat) (descr : String) : Except DbErr DB :=
  if amount < 0 then .error .checkViolation
  else if !(db.children.any (fun c => c.id == childId)) then .error .fkViolation
  else .ok { db with transactions :=
    { id := freshId (db.transactions.map (fun t => t.id))
      childId := childId
      appointmentId := none
      amount := amount
      txType := .payment
      date := date
      description := descr
      createdBy := uid } :: db.transactions }

/-- `deletePaymentMutation`: delete by id, restricted to `type = payment`. -/
def deletePaymentDb (db : DB) (id : Id) : DB :=
  { db with transactions :=
      db.transactions.filter (fun t => !(t.id == id && t.txType == .payment)) }

/-!  State machine of the durable store: every mutation of `appointments` or
`transactions` the UI can issue, each with the checks the store performs. -/

/-- One successful engine operation. -/
inductive Step : DB → DB → Prop where
  | insertApp {db db' : DB} {i : AppointmentInput} :
      insertAppointment db i = .ok db' → Step db db'
  | updateApp {db db' : DB} {uid : Option Id} {id : Id} {p : AppointmentPatch} :
      updateAppointmentDb db uid id p = .ok db' → Step db db'
  | reschedule {db db' : DB} {id : Id} {s e : Nat} :
      rescheduleAppointment db id s e = .ok db' → Step db db'
  | deleteApp {db : DB} {id : Id} : Step db (deleteAppointmentDb db id)
  | payment {db db' : DB} {uid : Option Id} {cid : Id} {amount : Int}
      {date : Nat} {descr : String} :
      insertPayment db uid cid amount date descr = .ok db' → Step db db'
  | deletePay {db : DB} {id : Id} : Step db (deletePaymentDb db id)

/-- States reachable from `base` by engine operations. -/
inductive Reachable (base : DB) : DB → Prop where
  | refl : Reachable base base
  | step {db db' : DB} : Reachable base db → Step db db' → Reachable base db'

/-- A base state: directories may hold anything, but no bookings or
transactions exist yet. -/
def BaseState (db : DB) : Prop :=
  db.appointments = [] ∧ db.transactions = []

/-- Half-open `[start, end)` interval overlap, as a proposition. -/
def TimeOverlap (a b : Appointment) : Prop :=
  a.startTime < b.endTime ∧ b.startTime < a.endTime

/-- Invariants I1 and I2: among rows with pairwise distinct ids, no two
non-canceled appointments of one child, and no two of one specialist,
overlap. -/
def NoOverlap (rows : List Appointment) : Prop :=
  ∀ a ∈ rows, ∀ b ∈ rows, a.id ≠ b.id →
    a.status ≠ .canceled → b.status ≠ .canceled →
    (a.childId = b.childId ∨ a.specialistId = b.specialistId) →
    ¬ TimeOverlap a b

/-- Primary-key sanity of the appointments table. -/
def IdsNodup (rows : List Appointment) : Prop :=
  (rows.map (fun a => a.id)).Nodup

/-- Invariant I3: at most one `charge` transaction per appointment. -/
def ChargeUnique (txs : List Transaction) : Prop :=
  ∀ aid : Id,
    (txs.filter (fun t => t.appointmentId == some aid && t.txType == .charge)).length ≤ 1

def Invariant (db : DB) : Prop :=
  IdsNodup db.appointments ∧ NoOverlap db.appointments ∧ ChargeUnique db.transactions

/-!  The recurrence expander (`buildOccurrences` and the recurring branch of
`upsertMutation` in `ServicesManager.tsx`). -/

/-- JavaScript `Date.getDay()` of an epoch day number (Sunday = 0). -/
def jsWeekday (day : Nat) : Nat := (day + 4) % 7

/-- The day loop of `buildOccurrences`: walk every calendar day from the
seed's day to the end date's day inclusive, keep the days whose weekday is
selected, project each kept day onto the seed's time-of-day
(`getHours`/`getMinutes`), and drop projections before the seed. -/
def occurrenceLoop (start untilT : Nat) (weekdays : List Nat) : List Nat :=
  (List.range (untilT / 1440 + 1 - start / 1440)).filterMap (fun i =>
    if jsWeekday (start / 1440 + i) ∈ weekdays then
      if (start / 1440 + i) * 1440 + start % 1440 < start then none
      else some ((start / 1440 + i) * 1440 + start % 1440)
    else none)

/-- `buildOccurrences`: the day loop, then `unshift` the exact seed start
time when no produced occurrence equals it. -/
def buildOccurrences (start untilT : Nat) (weekdays : List Nat) : List Nat :=
  let occs := occurrenceLoop start untilT weekdays
  if start ∈ occs then occs else start :: occs

/-- The per-occurrence fields of a recurring request (the form values minus
the recurrence rule itself). -/
structure RecurringValues where
  childId : Id
  specialistId : Id
  serviceId : Id
  durationMin : Nat
  status : AppointmentStatus
  notes : Option String
  createdBy : Option Id
deriving DecidableEq

/-- The row inserted for one occurrence of a recurring series. -/
def occurrenceInput (v : RecurringValues) (gid : Id) (occStart : Nat) :
    AppointmentInput :=
  { childId := v.childId
    specialistId := v.specialistId
    serviceId := v.serviceId
    startTime := occStart
    endTime := occStart + v.durationMin
    status := v.status
    notes := v.notes
    isRecurring := true
    recurrenceGroupId := some gid
    createdBy := v.createdBy }

/-- The insert loop of the recurring branch of `upsertMutation`: each
occurrence is inserted independently; a conflict (`isConflictError`) is
pushed onto `failed` and the loop continues; any other error rethrows,
aborting the remaining occurrences.  Returns the final store, the
accumulated failed timestamps and the non-conflict error, if one aborted. -/
def runOccurrences (db : DB) (v : RecurringValues) (gid : Id)
    (occs : List Nat) (failed : List Nat) :
    DB × List Nat × Option DbErr :=
  match occs with
  | [] => (db, failed, none)
  | occ :: rest =>
    match insertAppointment db (occurrenceInput v gid occ) with
    | .ok db' => runOccurrences db' v gid rest failed
    | .error e =>
      if e = .conflict then runOccurrences db v gid rest (failed ++ [occ])
      else (db, failed, some e)

/-- Russian month names in the genitive, as `Intl.DateTimeFormat("ru-RU")`
renders a long date. -/
def ruMonthGenitive (m : Nat) : String :=
  match m with
  | 1 => "января" | 2 => "февраля" | 3 => "марта" | 4 => "апреля"
  | 5 => "мая" | 6 => "июня" | 7 => "июля" | 8 => "августа"
  | 9 => "сентября" | 10 => "октября" | 11 => "ноября" | 12 => "декабря"
  | _ => ""

/-- `formatDateLongRu(t) + " " + formatTimeRu(t)`. -/
def formatRuDateTime (t : Nat) : String :=
  let c := civilFromDay (t / 1440)
  pad2 c.2.2 ++ " " ++ ruMonthGenitive c.2.1 ++ " " ++ toString c.1 ++ " г. "
    ++ pad2 (t % 1440 / 60) ++ ":" ++ pad2 (t % 60)

/-- What the recurring branch of `upsertMutation` surfaces to its caller
after attempting every occurrence: a plain success, or one thrown `Error`.
When any occurrence conflicted it throws a single error whose message names
the first failed occurrence's date and time. -/
def recurringOutcome (failed : List Nat) (aborted : Option DbErr) :
    Except String Unit :=
  match aborted with
  | some _ => .error "Не удалось сохранить запись"
  | none =>
    match failed with
    | [] => .ok ()
    | f :: _ =>
      .error ("Серия создана частично. Есть конфликты, например: " ++ formatRuDateTime f)

/-- The whole recurring branch: expand the rule, insert every occurrence
independently, then either succeed or throw. -/
def createRecurringSeries (db : DB) (v : RecurringValues) (gid : Id)
    (start untilT : Nat) (weekdays : List Nat) :
    DB × List Nat × Except String Unit :=
  let occs := buildOccurrences start untilT weekdays
  let r := runOccurrences db v gid occs []
  (r.1, r.2.1, recurringOutcome r.2.1 r.2.2)

/-!  The finance aggregation of `FinanceManager`. -/

structure Totals where
  charges : Int
  payments : Int
  balance : Int
deriving DecidableEq

/-- The `totals` computation of `FinanceManager`: one pass over the child's
transactions, `charge` amounts into `charges`, everything else into
`payments`, and `balance = payments - charges`.  It is recomputed from the
transaction list on every render; no stored balance field exists in the
schema. -/
def computeTotals (txs : List Transaction) : Totals :=
  let r := txs.foldl
    (fun (acc : Int × Int) t =>
      if t.txType = .charge then (acc.1 + t.amount, acc.2) else (acc.1, acc.2 + t.amount))
    (0, 0)
  { charges := r.1, payments := r.2, balance := r.2 - r.1 }

/-- The status choices offered by the appointment form (`statusOptions`),
for both creation and editing. -/
def statusOptions : List AppointmentStatus :=
  [.pending, .confirmed, .completed, .no_show, .canceled]

/-!  Capability predicates and row-level-security policies.  `auth.uid()` is
modelled as an `Option Id` (it is null for an unauthenticated session); an
SQL comparison `x = auth.uid()` is false when the uid is null. -/

/-- `public.get_my_role()`: the caller's profile role, defaulting to
`parent` when no profile row matches. -/
def getMyRole (db : DB) (uid : Option Id) : UserRole :=
  match uid with
  | none => .parent
  | some u => ((db.profiles.find? (fun p => p.id == u)).map (fun p => p.role)).getD .parent

/-- `public.is_admin()`. -/
def isAdmin (db : DB) (uid : Option Id) : Bool :=
  getMyRole db uid == .admin

/-- `public.is_manager()`: an existence check over `profiles`. -/
def isManager (db : DB) (uid : Option Id) : Bool :=
  match uid with
  | none => false
  | some u => db.profiles.any (fun p => p.id == u && p.role == .manager)

/-- `public.is_admin_or_manager()`. -/
def isAdminOrManager (db : DB) (uid : Option Id) : Bool :=
  isAdmin db uid || isManager db uid

/-- `public.can_read_child(child_uuid)`: elevated role, or registered
guardian of the child, or specialist with an active assignment to it. -/
def canReadChild (db : DB) (uid : Option Id) (cid : Id) : Bool :=
  isAdminOrManager db uid
    || (match uid with
        | none => false
        | some u => db.children.any (fun c => c.id == cid && c.parentId == some u))
    || (match uid with
        | none => false
        | some u => db.therapistChildren.any (fun tc => tc.childId == cid && tc.therapistId == u))

/-- `public.can_write_child(child_uuid)`: elevated role, or specialist with
an active assignment; guardianship grants nothing here. -/
def canWriteChild (db : DB) (uid : Option Id) (cid : Id) : Bool :=
  isAdminOrManager db uid
    || (match uid with
        | none => false
        | some u => db.therapistChildren.any (fun tc => tc.childId == cid && tc.therapistId == u))

/-- RLS policy `appointments_insert_admin_or_manager` (`with check`). -/
def appointmentsInsertPolicy (db : DB) (uid : Option Id) : Bool :=
  isAdminOrManager db uid

/-- RLS policy `appointments_select_by_access`. -/
def appointmentsSelectPolicy (db : DB) (uid : Option Id) (a : Appointment) : Bool :=
  isAdminOrManager db uid || some a.specialistId == uid || canReadChild db uid a.childId

/-- RLS policy `appointments_update_admin_or_manager_or_specialist`. -/
def appointmentsUpdatePolicy (db : DB) (uid : Option Id) (a : Appointment) : Bool :=
  isAdminOrManager db uid || some a.specialistId == uid

/-- RLS policy `appointments_delete_admin_or_manager`. -/
def appointmentsDeletePolicy (db : DB) (uid : Option Id) : Bool :=
  isAdminOrManager db uid

/-- RLS policy `transactions_select_by_child_access`. -/
def transactionsSelectPolicy (db : DB) (uid : Option Id) (t : Transaction) : Bool :=
  isAdminOrManager db uid || canReadChild db uid t.childId

/-- RLS policy `transactions_insert_admin_or_manager_or_specialist_charge`. -/
def transactionsInsertPolicy (db : DB) (uid : Option Id) (t : Transaction) : Bool :=
  isAdminOrManager db uid
    || (t.txType == .charge
        && t.appointmentId.isSome
        && db.appointments.any (fun a => some a.id == t.appointmentId && some a.specialistId == uid))

/-- RLS policy `transactions_update_admin_or_manager`. -/
def transactionsUpdatePolicy (db : DB) (uid : Option Id) : Bool :=
  isAdminOrManager db uid

/-- RLS policy `transactions_delete_admin_or_manager`. -/
def transactionsDeletePolicy (db : DB) (uid : Option Id) : Bool :=
  isAdminOrManager db uid

/-!  ## Basic lemmas -/

theorem le_foldr_max (ids : List Id) : ∀ i ∈ ids, i ≤ ids.foldr (fun i m => max i m) 0 := by
  induction ids with
  | nil => intro i hi; cases hi
  | cons x xs ih =>
    intro i hi
    rcases List.mem_cons.mp hi with h | h
    · subst h; exact le_max_left _ _
    · exact le_trans (ih i h) (le_max_right _ _)

theorem freshId_not_mem (ids : List Id) : freshId ids ∉ ids := by
  intro hmem
  have h := le_foldr_max ids (freshId ids) hmem
  revert h
  unfold freshId
  generalize ids.foldr (fun i m => max i m) 0 = M
  intro h
  exact Nat.not_succ_le_self M h

/-- Unpacking a passed child-exclusion check for one non-canceled pair. -/
theorem conflictsChild_eq_false {a b : Appointment}
    (h : conflictsChild a b = false)
    (ha : a.status ≠ .canceled) (hb : b.status ≠ .canceled)
    (hk : a.childId = b.childId) : ¬ TimeOverlap a b := by
  intro hov
  have h1 := hov.1
  have h2 := hov.2
  have htrue : conflictsChild a b = true := by
    simp only [conflictsChild, rangesOverlap, Bool.and_eq_true, beq_iff_eq,
      Bool.not_eq_true', beq_eq_false_iff_ne, decide_eq_true_eq]
    tauto
  rw [h] at htrue
  cases htrue

/-- Unpacking a passed specialist-exclusion check for one non-canceled pair. -/
theorem conflictsSpecialist_eq_false {a b : Appointment}
    (h : conflictsSpecialist a b = false)
    (ha : a.status ≠ .canceled) (hb : b.status ≠ .canceled)
    (hk : a.specialistId = b.specialistId) : ¬ TimeOverlap a b := by
  intro hov
  have h1 := hov.1
  have h2 := hov.2
  have htrue : conflictsSpecialist a b = true := by
    simp only [conflictsSpecialist, rangesOverlap, Bool.and_eq_true, beq_iff_eq,
      Bool.not_eq_true', beq_eq_false_iff_ne, decide_eq_true_eq]
    tauto
  rw [h] at htrue
  cases htrue

theorem violatesExclusion_forall {rows : List Appointment} {r : Appointment}
    (h : violatesExclusion rows r = false) :
    ∀ b ∈ rows, conflictsSpecialist r b = false ∧ conflictsChild r b = false := by
  intro b hb
  simp only [violatesExclusion, List.any_eq_false] at h
  have := h b hb
  simp only [Bool.or_eq_true, not_or, Bool.not_eq_true] at this
  exact this

/-- A passed exclusion check rules out an overlap with any row of `rows`, in
either orientation of the pair. -/
theorem violatesExclusion_no_overlap {rows : List Appointment} {r : Appointment}
    (h : violatesExclusion rows r = false) :
    ∀ b ∈ rows, r.status ≠ .canceled → b.status ≠ .canceled →
      (r.childId = b.childId ∨ r.specialistId = b.specialistId) →
      ¬ TimeOverlap r b := by
  intro b hb hr hbny hk
  rcases violatesExclusion_forall h b hb with ⟨hs, hc⟩
  rcases hk with hk | hk
  · exact conflictsChild_eq_false hc hr hbny hk
  · exact conflictsSpecialist_eq_false hs hr hbny hk

theorem timeOverlap_comm {a b : Appointment} : TimeOverlap a b ↔ TimeOverlap b a := by
  constructor <;> exact fun h => ⟨h.2, h.1⟩

/-!  ## Unpacking successful operations -/

theorem insertAppointment_ok {db : DB} {i : AppointmentInput} {db' : DB}
    (h : insertAppointment db i = .ok db') :
    i.startTime < i.endTime ∧
    violatesExclusion db.appointments
      (mkAppointment i (freshId (db.appointments.map (fun a => a.id)))) = false ∧
    db' = { db with appointments := mkAppointment i (freshId (db.appointments.map (fun a => a.id))) :: db.appointments } := by
  unfold insertAppointment at h
  split at h
  · cases h
  split at h
  · cases h
  split at h
  · cases h
  split at h
  · cases h
  simp only [] at h
  split at h
  · cases h
  rename_i hts _ _ _ hexcl
  refine ⟨by omega, by simpa using hexcl, ?_⟩
  cases h
  rfl

/-- The charge trigger never touches the appointments table (or any
directory table). -/
theorem handle_frame (db : DB) (uid : Option Id) (o n : Appointment) :
    (handleAppointmentCompletedCharge db uid o n).appointments = db.appointments ∧
    (handleAppointmentCompletedCharge db uid o n).children = db.children ∧
    (handleAppointmentCompletedCharge db uid o n).services = db.services ∧
    (handleAppointmentCompletedCharge db uid o n).profiles = db.profiles := by
  unfold handleAppointmentCompletedCharge
  split
  · split <;> exact ⟨rfl, rfl, rfl, rfl⟩
  · exact ⟨rfl, rfl, rfl, rfl⟩

/-- What the trigger does to the transactions table: nothing unless the
update is a completion edge against a charge-free appointment, in which case
it prepends the one charge row. -/
theorem handle_transactions (db : DB) (uid : Option Id) (o n : Appointment) :
    (¬ (n.status = .completed ∧ o.status ≠ n.status) →
      (handleAppointmentCompletedCharge db uid o n).transactions = db.transactions) ∧
    (chargeExists db.transactions n.id = true →
      (handleAppointmentCompletedCharge db uid o n).transactions = db.transactions) := by
  constructor
  · intro hcond
    unfold handleAppointmentCompletedCharge
    split
    · rename_i hc; exact absurd hc hcond
    · rfl
  · intro hex
    unfold handleAppointmentCompletedCharge
    split
    · simp only [hex, if_true]
    · rfl

theorem updateAppointmentDb_ok {db : DB} {uid : Option Id} {id : Id}
    {p : AppointmentPatch} {db' : DB}
    (h : updateAppointmentDb db uid id p = .ok db') :
    (db.appointments.find? (fun a => a.id == id) = none ∧ db' = db) ∨
    ∃ oldRow, db.appointments.find? (fun a => a.id == id) = some oldRow ∧
      (applyPatch oldRow p).startTime < (applyPatch oldRow p).endTime ∧
      violatesExclusion (db.appointments.filter (fun a => !(a.id == id)))
        (applyPatch oldRow p) = false ∧
      db' = handleAppointmentCompletedCharge
        { db with appointments := db.appointments.map (fun a => if a.id = id then applyPatch oldRow p else a) }
        uid oldRow (applyPatch oldRow p) := by
  unfold updateAppointmentDb at h
  split at h
  · rename_i hf
    cases h
    exact Or.inl ⟨hf, rfl⟩
  rename_i oldRow hf
  simp only [] at h
  split at h
  · cases h
  split at h
  · cases h
  split at h
  · cases h
  split at h
  · cases h
  split at h
  · cases h
  rename_i hts _ _ _ hexcl
  cases h
  exact Or.inr ⟨oldRow, hf, by omega, by simpa using hexcl, rfl⟩

theorem rescheduleAppointment_ok {db : DB} {id : Id} {s e : Nat} {db' : DB}
    (h : rescheduleAppointment db id s e = .ok db') :
    (db.appointments.find? (fun a => a.id == id) = none ∧ db' = db) ∨
    ∃ oldRow, db.appointments.find? (fun a => a.id == id) = some oldRow ∧
      violatesExclusion (db.appointments.filter (fun a => !(a.id == id)))
        { oldRow with startTime := s, endTime := e } = false ∧
      db' = { db with appointments := db.appointments.map (fun a => if a.id = id then { oldRow with startTime := s, endTime := e } else a) } := by
  unfold rescheduleAppointment at h
  split at h
  · rename_i hf
    cases h
    exact Or.inl ⟨hf, rfl⟩
  rename_i oldRow hf
  simp only [] at h
  split at h
  · cases h
  split at h
  · cases h
  rename_i hts hexcl
  cases h
  exact Or.inr ⟨oldRow, hf, by simpa using hexcl, rfl⟩

theorem insertPayment_ok {db : DB} {uid : Option Id} {cid : Id} {amount : Int}
    {date : Nat} {descr : String} {db' : DB}
    (h : insertPayment db uid cid amount date descr = .ok db') :
    db'.appointments = db.appointments ∧
    ∃ t : Transaction, t.txType = .payment ∧ db'.transactions = t :: db.transactions := by
  unfold insertPayment at h
  split at h
  · cases h
  split at h
  · cases h
  cases h
  exact ⟨rfl, _, rfl, rfl⟩

/-!  ## Preservation of the store invariants -/

theorem noOverlap_cons {row : Appointment} {rows : List Appointment}
    (hchk : violatesExclusion rows row = false)
    (hno : NoOverlap rows) : NoOverlap (row :: rows) := by
  intro a ha b hb hne hna hnb hk
  rcases List.mem_cons.mp ha with ha1 | ha2 <;> rcases List.mem_cons.mp hb with hb1 | hb2
  · subst ha1; subst hb1; exact absurd rfl hne
  · subst ha1
    exact violatesExclusion_no_overlap hchk b hb2 hna hnb hk
  · subst hb1
    intro hov
    have hk2 : b.childId = a.childId ∨ b.specialistId = a.specialistId := by
      rcases hk with h | h
      · exact Or.inl h.symm
      · exact Or.inr h.symm
    exact violatesExclusion_no_overlap hchk a ha2 hnb hna hk2 (timeOverlap_comm.mp hov)
  · exact hno a ha2 b hb2 hne hna hnb hk

theorem idsNodup_cons {row : Appointment} {rows : List Appointment}
    (hfresh : row.id ∉ rows.map (fun a => a.id))
    (h : IdsNodup rows) : IdsNodup (row :: rows) := by
  simp only [IdsNodup, List.map_cons, List.nodup_cons]
  exact ⟨hfresh, h⟩

theorem mem_replace {rows : List Appointment} {id : Id} {newRow x : Appointment}
    (hx : x ∈ rows.map (fun a => if a.id = id then newRow else a)) :
    x = newRow ∨ (x ∈ rows ∧ x.id ≠ id) := by
  rcases List.mem_map.mp hx with ⟨a, ha, hax⟩
  by_cases hid : a.id = id
  · rw [if_pos hid] at hax
    exact Or.inl hax.symm
  · rw [if_neg hid] at hax
    subst hax
    exact Or.inr ⟨ha, hid⟩

theorem replace_id_map {rows : List Appointment} {id : Id} {newRow : Appointment}
    (hid : newRow.id = id) :
    (rows.map (fun a => if a.id = id then newRow else a)).map (fun a => a.id)
      = rows.map (fun a => a.id) := by
  induction rows with
  | nil => rfl
  | cons x xs ih =>
    simp only [List.map_cons, ih]
    congr 1
    by_cases h : x.id = id
    · rw [if_pos h, hid]
      exact h.symm
    · rw [if_neg h]

theorem replace_preserves {rows : List Appointment} {id : Id} {newRow : Appointment}
    (hid : newRow.id = id)
    (hchk : violatesExclusion (rows.filter (fun a => !(a.id == id))) newRow = false)
    (hnd : IdsNodup rows) (hno : NoOverlap rows) :
    IdsNodup (rows.map (fun a => if a.id = id then newRow else a)) ∧
    NoOverlap (rows.map (fun a => if a.id = id then newRow else a)) := by
  constructor
  · rw [IdsNodup, replace_id_map hid]
    exact hnd
  intro a ha b hb hne hna hnb hk
  rcases mem_replace ha with ha1 | ⟨ha2, haid⟩ <;> rcases mem_replace hb with hb1 | ⟨hb2, hbid⟩
  · subst ha1; subst hb1; exact absurd rfl hne
  · subst ha1
    have hbf : b ∈ rows.filter (fun x => !(x.id == id)) :=
      List.mem_filter.mpr ⟨hb2, by simp [hbid]⟩
    exact violatesExclusion_no_overlap hchk b hbf hna hnb hk
  · subst hb1
    intro hov
    have hk2 : b.childId = a.childId ∨ b.specialistId = a.specialistId := by
      rcases hk with h | h
      · exact Or.inl h.symm
      · exact Or.inr h.symm
    have haf : a ∈ rows.filter (fun x => !(x.id == id)) :=
      List.mem_filter.mpr ⟨ha2, by simp [haid]⟩
    exact violatesExclusion_no_overlap hchk a haf hnb hna hk2 (timeOverlap_comm.mp hov)
  · exact hno a ha2 b hb2 hne hna hnb hk

/-!  Charge-uniqueness preservation -/

theorem chargeExists_false_filter {txs : List Transaction} {aid : Id}
    (h : chargeExists txs aid = false) :
    txs.filter (fun t => t.appointmentId == some aid && t.txType == .charge) = [] := by
  simp only [chargeExists, List.any_eq_false] at h
  refine List.filter_eq_nil_iff.mpr ?_
  intro t ht
  simpa using h t ht

theorem chargeUnique_cons_payment {t : Transaction} {txs : List Transaction}
    (ht : t.txType = .payment) (h : ChargeUnique txs) : ChargeUnique (t :: txs) := by
  intro aid
  have hc : (t.appointmentId == some aid && t.txType == .charge) = false := by
    simp [ht]
  simp only [List.filter_cons, hc]
  simpa using h aid

theorem chargeUnique_insert_charge {txs : List Transaction} {t : Transaction} {aid : Id}
    (htid : t.appointmentId = some aid)
    (hno : chargeExists txs aid = false)
    (h : ChargeUnique txs) : ChargeUnique (t :: txs) := by
  intro aid2
  by_cases heq : aid2 = aid
  · subst heq
    rw [List.filter_cons, chargeExists_false_filter hno]
    split <;> simp
  · have hc : (t.appointmentId == some aid2 && t.txType == .charge) = false := by
      have hne : aid ≠ aid2 := fun hh => heq hh.symm
      simp [htid, hne]
    simp only [List.filter_cons, hc]
    simpa using h aid2

theorem handle_preserves_chargeUnique (db : DB) (uid : Option Id) (o n : Appointment)
    (h : ChargeUnique db.transactions) :
    ChargeUnique (handleAppointmentCompletedCharge db uid o n).transactions := by
  unfold handleAppointmentCompletedCharge
  split
  · split
    · exact h
    · rename_i hex
      exact chargeUnique_insert_charge rfl (by simpa using hex) h
  · exact h

theorem length_filter_map_le {α : Type} (f : α → α) (p : α → Bool) (l : List α)
    (hp : ∀ a ∈ l, p (f a) = true → p a = true) :
    ((l.map f).filter p).length ≤ (l.filter p).length := by
  induction l with
  | nil => simp
  | cons x xs ih =>
    have ih2 := ih (fun a ha => hp a (List.mem_cons_of_mem x ha))
    simp only [List.map_cons, List.filter_cons]
    cases hfx : p (f x) with
    | true =>
      rw [hp x (List.mem_cons_self x xs) hfx]
      simpa using Nat.succ_le_succ ih2
    | false =>
      cases hx : p x with
      | true => simpa using Nat.le_succ_of_le ih2
      | false => simpa using ih2

theorem chargeUnique_delete_appointment {txs : List Transaction} (did : Id)
    (h : ChargeUnique txs) :
    ChargeUnique (txs.map (fun t =>
      if t.appointmentId = some did then { t with appointmentId := none } else t)) := by
  intro aid
  refine le_trans (length_filter_map_le _ _ _ ?_) (h aid)
  intro t ht hpt
  by_cases hd : t.appointmentId = some did
  · rw [if_pos hd] at hpt
    simp at hpt
  · rw [if_neg hd] at hpt
    exact hpt

theorem chargeUnique_filter {txs : List Transaction} (q : Transaction → Bool)
    (h : ChargeUnique txs) : ChargeUnique (txs.filter q) := by
  intro aid
  refine le_trans (List.Sublist.length_le ?_) (h aid)
  exact List.Sublist.filter _ (List.filter_sublist txs)

theorem noOverlap_subset {l1 l2 : List Appointment} (hs : l1 ⊆ l2) (h : NoOverlap l2) :
    NoOverlap l1 :=
  fun a ha b hb => h a (hs ha) b (hs hb)

theorem idsNodup_sublist {l1 l2 : List Appointment} (hs : l1.Sublist l2) (h : IdsNodup l2) :
    IdsNodup l1 :=
  List.Nodup.sublist (hs.map (fun a => a.id)) h

/-- Every engine operation preserves the store invariants. -/
theorem step_preserves {db db' : DB} (hstep : Step db db') (hinv : Invariant db) :
    Invariant db' := by
  obtain ⟨hnd, hno, hcu⟩ := hinv
  cases hstep with
  | insertApp h =>
    obtain ⟨hts, hchk, rfl⟩ := insertAppointment_ok h
    refine ⟨?_, noOverlap_cons hchk hno, hcu⟩
    exact idsNodup_cons (by simpa [mkAppointment] using freshId_not_mem (db.appointments.map (fun a => a.id))) hnd
  | updateApp h =>
    rename_i uid id p
    rcases updateAppointmentDb_ok h with ⟨hf, rfl⟩ | ⟨oldRow, hf, hts, hchk, rfl⟩
    · exact ⟨hnd, hno, hcu⟩
    · have hoid : oldRow.id = id := by simpa using List.find?_some hf
      have hid : (applyPatch oldRow p).id = id := by
        simp only [applyPatch]
        exact hoid
      obtain ⟨hnd2, hno2⟩ := replace_preserves hid hchk hnd hno
      have hframe := (handle_frame { db with appointments := db.appointments.map (fun a => if a.id = id then applyPatch oldRow p else a) } uid oldRow (applyPatch oldRow p)).1
      refine ⟨?_, ?_, ?_⟩
      · rw [hframe]
        exact hnd2
      · rw [hframe]
        exact hno2
      · exact handle_preserves_chargeUnique { db with appointments := db.appointments.map (fun a => if a.id = id then applyPatch oldRow p else a) } uid oldRow (applyPatch oldRow p) hcu
  | reschedule h =>
    rename_i id s e
    rcases rescheduleAppointment_ok h with ⟨hf, rfl⟩ | ⟨oldRow, hf, hchk, rfl⟩
    · exact ⟨hnd, hno, hcu⟩
    · have hoid : oldRow.id = id := by simpa using List.find?_some hf
      have hid : ({ oldRow with startTime := s, endTime := e } : Appointment).id = id := hoid
      obtain ⟨hnd2, hno2⟩ := replace_preserves hid hchk hnd hno
      exact ⟨hnd2, hno2, hcu⟩
  | deleteApp =>
    rename_i id
    refine ⟨?_, ?_, ?_⟩
    · exact idsNodup_sublist (List.filter_sublist db.appointments) hnd
    · exact noOverlap_subset (List.filter_sublist db.appointments).subset hno
    · exact chargeUnique_delete_appointment id hcu
  | payment h =>
    obtain ⟨happ, t, htp, htx⟩ := insertPayment_ok h
    refine ⟨?_, ?_, ?_⟩
    · rw [happ]
      exact hnd
    · rw [happ]
      exact hno
    · rw [htx]
      exact chargeUnique_cons_payment htp hcu
  | deletePay =>
    exact ⟨hnd, hno, chargeUnique_filter _ hcu⟩

/-- Every state reachable from a booking-free base state satisfies the store
invariants I1, I2 and I3. -/
theorem invariant_reachable {base db : DB} (hbase : BaseState base)
    (hr : Reachable base db) : Invariant db := by
  induction hr with
  | refl =>
    obtain ⟨h1, h2⟩ := hbase
    refine ⟨?_, ?_, ?_⟩
    · rw [h1]
      simp [IdsNodup]
    · rw [h1]
      intro a ha
      cases ha
    · rw [h2]
      intro aid
      simp
  | step _ hstep ih => exact step_preserves hstep ih

/-!  ## The recurrence expander: membership characterisation -/

theorem mem_occurrenceLoop (start untilT : Nat) (weekdays : List Nat) (t : Nat) :
    t ∈ occurrenceLoop start untilT weekdays ↔
      ∃ d : Nat, start / 1440 ≤ d ∧ d ≤ untilT / 1440 ∧ jsWeekday d ∈ weekdays ∧
        t = d * 1440 + start % 1440 := by
  have hsd : 1440 * (start / 1440) + start % 1440 = start := Nat.div_add_mod start 1440
  constructor
  · intro ht
    rcases List.mem_filterMap.mp ht with ⟨i, hi, hfi⟩
    have hir := List.mem_range.mp hi
    by_cases hw : jsWeekday (start / 1440 + i) ∈ weekdays
    · rw [if_pos hw] at hfi
      by_cases hlt : (start / 1440 + i) * 1440 + start % 1440 < start
      · rw [if_pos hlt] at hfi
        cases hfi
      · rw [if_neg hlt] at hfi
        refine ⟨start / 1440 + i, by omega, by omega, hw, (Option.some.injEq _ _ ▸ hfi).symm⟩
    · rw [if_neg hw] at hfi
      cases hfi
  · rintro ⟨d, hd1, hd2, hw, rfl⟩
    apply List.mem_filterMap.mpr
    refine ⟨d - start / 1440, List.mem_range.mpr (by omega), ?_⟩
    have hplus : start / 1440 + (d - start / 1440) = d := by omega
    rw [hplus, if_pos hw, if_neg (by omega)]

theorem mem_buildOccurrences (start untilT : Nat) (weekdays : List Nat) (t : Nat) :
    t ∈ buildOccurrences start untilT weekdays ↔
      (t = start ∨ ∃ d : Nat, start / 1440 ≤ d ∧ d ≤ untilT / 1440 ∧
        jsWeekday d ∈ weekdays ∧ t = d * 1440 + start % 1440) := by
  unfold buildOccurrences
  by_cases hs : start ∈ occurrenceLoop start untilT weekdays
  · rw [if_pos hs]
    constructor
    · intro ht
      exact Or.inr ((mem_occurrenceLoop start untilT weekdays t).mp ht)
    · rintro (rfl | hd)
      · exact hs
      · exact (mem_occurrenceLoop start untilT weekdays t).mpr hd
  · rw [if_neg hs]
    constructor
    · intro ht
      rcases List.mem_cons.mp ht with h | h
      · exact Or.inl h
      · exact Or.inr ((mem_occurrenceLoop start untilT weekdays t).mp h)
    · rintro (rfl | hd)
      · exact List.mem_cons_self _ _
      · exact List.mem_cons_of_mem _ ((mem_occurrenceLoop start untilT weekdays t).mpr hd)

/-!  ## The recurring insert loop -/

theorem insertAppointment_ok_counts {db : DB} {i : AppointmentInput} {db2 : DB}
    (h : insertAppointment db i = .ok db2) :
    db2.appointments.length = db.appointments.length + 1 ∧
    db2.transactions = db.transactions := by
  obtain ⟨_, _, rfl⟩ := insertAppointment_ok h
  exact ⟨by simp, rfl⟩

/-- When the recurring loop runs to completion (no non-conflict error), every
occurrence was attempted: each one either became a new appointment row or its
timestamp was appended to the failure list, and no transaction is touched. -/
theorem runOccurrences_total (v : RecurringValues) (gid : Id) :
    ∀ (occs : List Nat) (db : DB) (f0 : List Nat) (db2 : DB) (f : List Nat),
      runOccurrences db v gid occs f0 = (db2, f, none) →
      ∃ extra, f = f0 ++ extra ∧
        db2.appointments.length + extra.length = db.appointments.length + occs.length ∧
        db2.transactions = db.transactions := by
  intro occs
  induction occs with
  | nil =>
    intro db f0 db2 f h
    simp only [runOccurrences, Prod.mk.injEq] at h
    obtain ⟨rfl, rfl, -⟩ := h
    exact ⟨[], by simp, by simp, rfl⟩
  | cons occ rest ih =>
    intro db f0 db2 f h
    simp only [runOccurrences] at h
    split at h
    · rename_i dbn hins
      obtain ⟨extra, hf, hlen, htx⟩ := ih dbn f0 db2 f h
      obtain ⟨hcount, htx2⟩ := insertAppointment_ok_counts hins
      refine ⟨extra, hf, ?_, htx.trans htx2⟩
      simp only [List.length_cons]
      omega
    · rename_i e hins
      split at h
      · obtain ⟨extra, hf, hlen, htx⟩ := ih db (f0 ++ [occ]) db2 f h
        refine ⟨occ :: extra, by simpa using hf, ?_, htx⟩
        simp only [List.length_cons, List.length_append, List.length_nil] at hlen ⊢
        omega
      · simp only [Prod.mk.injEq] at h
        exact absurd h.2.2 (by simp)

/-!  ## The finance aggregation -/

/-- Total charge amount of a transaction list. -/
def sumCharges (txs : List Transaction) : Int :=
  ((txs.filter (fun t => t.txType == .charge)).map (fun t => t.amount)).sum

/-- Total payment amount of a transaction list (`FinanceManager` counts every
non-charge transaction as a payment; the enum has only the two values). -/
def sumPayments (txs : List Transaction) : Int :=
  ((txs.filter (fun t => !(t.txType == .charge))).map (fun t => t.amount)).sum

theorem computeTotals_foldl (txs : List Transaction) :
    ∀ c p : Int,
      txs.foldl (fun (acc : Int × Int) t => if t.txType = .charge then (acc.1 + t.amount, acc.2) else (acc.1, acc.2 + t.amount)) (c, p)
        = (c + sumCharges txs, p + sumPayments txs) := by
  induction txs with
  | nil => intro c p; simp [sumCharges, sumPayments]
  | cons t rest ih =>
    intro c p
    by_cases ht : t.txType = .charge
    · simp only [List.foldl_cons, if_pos ht, ih]
      simp [sumCharges, sumPayments, List.filter_cons, ht]
      omega
    · simp only [List.foldl_cons, if_neg ht, ih]
      simp [sumCharges, sumPayments, List.filter_cons, ht]
      omega

theorem computeTotals_spec (txs : List Transaction) :
    computeTotals txs =
      { charges := sumCharges txs, payments := sumPayments txs,
        balance := sumPayments txs - sumCharges txs } := by
  unfold computeTotals
  rw [computeTotals_foldl txs 0 0]
  simp

/-!  ## The completion trigger on status updates -/

theorem handle_fires {db : DB} {uid : Option Id} {o n : Appointment}
    (hcond : n.status = .completed ∧ o.status ≠ n.status)
    (hex : chargeExists db.transactions n.id = false) :
    handleAppointmentCompletedCharge db uid o n =
      { db with transactions := completionCharge db uid n :: db.transactions } := by
  unfold handleAppointmentCompletedCharge
  rw [if_pos hcond, if_neg (by simp [hex])]

theorem find?_map_replace {rows : List Appointment} {id : Id} {newRow : Appointment}
    (hid : newRow.id = id) (h : ∃ a, rows.find? (fun x => x.id == id) = some a) :
    (rows.map (fun x => if x.id = id then newRow else x)).find? (fun x => x.id == id)
      = some newRow := by
  induction rows with
  | nil =>
    rcases h with ⟨a, ha⟩
    simp [List.find?] at ha
  | cons y ys ih =>
    by_cases hy : y.id = id
    · simp only [List.map_cons, if_pos hy]
      rw [List.find?_cons_of_pos _ (by simp [hid])]
    · simp only [List.map_cons, if_neg hy]
      rw [List.find?_cons_of_neg _ (by simp [hy])]
      apply ih
      rcases h with ⟨a, ha⟩
      rw [List.find?_cons_of_neg _ (by simp [hy])] at ha
      exact ⟨a, ha⟩

/-- The status-only patch leaves every column of the found row unchanged
except `status`. -/
theorem applyPatch_statusPatch (a : Appointment) (st : AppointmentStatus) :
    applyPatch a (statusPatch a st) = { a with status := st } := rfl

/-- A successful completion edge: the found row was not yet completed and no
charge exists for it, so the trigger inserts exactly the completion charge,
and the appointment row itself now carries status `completed`. -/
theorem setStatus_completed_spec {db : DB} {uid : Option Id} {id : Id}
    {a : Appointment} {db2 : DB}
    (hf : db.appointments.find? (fun x => x.id == id) = some a)
    (hna : a.status ≠ .completed)
    (hex : chargeExists db.transactions id = false)
    (h : setAppointmentStatus db uid id .completed = .ok db2) :
    db2.transactions = completionCharge db uid { a with status := .completed } :: db.transactions ∧
    db2.services = db.services ∧
    db2.appointments.find? (fun x => x.id == id) = some { a with status := .completed } := by
  have haid : a.id = id := by simpa using List.find?_some hf
  unfold setAppointmentStatus at h
  rw [hf] at h
  rcases updateAppointmentDb_ok h with ⟨hnone, rfl⟩ | ⟨oldRow, hf2, hts, hchk, rfl⟩
  · rw [hf] at hnone
    cases hnone
  · rw [hf] at hf2
    have hoa : a = oldRow := Option.some.inj hf2
    subst hoa
    rw [applyPatch_statusPatch] at hts hchk ⊢
    have hcond : ({ a with status := .completed } : Appointment).status = .completed ∧
        a.status ≠ ({ a with status := .completed } : Appointment).status :=
      ⟨rfl, by simpa using hna⟩
    have hexX : chargeExists db.transactions ({ a with status := .completed } : Appointment).id = false := by
      simpa [haid] using hex
    have hfired := @handle_fires { db with appointments := db.appointments.map (fun x => if x.id = id then ({ a with status := .completed } : Appointment) else x) } uid a { a with status := .completed } hcond hexX
    rw [hfired]
    refine ⟨rfl, rfl, ?_⟩
    exact find?_map_replace haid ⟨a, hf⟩

/-- Writing `completed` onto an already-completed row is not a completion
edge: the trigger does not fire and the ledger is untouched. -/
theorem setStatus_completed_noop {db : DB} {uid : Option Id} {id : Id}
    {a : Appointment} {db2 : DB}
    (hf : db.appointments.find? (fun x => x.id == id) = some a)
    (hst : a.status = .completed)
    (h : setAppointmentStatus db uid id .completed = .ok db2) :
    db2.transactions = db.transactions := by
  unfold setAppointmentStatus at h
  rw [hf] at h
  rcases updateAppointmentDb_ok h with ⟨hnone, rfl⟩ | ⟨oldRow, hf2, hts, hchk, rfl⟩
  · rfl
  · rw [hf] at hf2
    have hoa : a = oldRow := Option.some.inj hf2
    subst hoa
    refine (handle_transactions _ uid a (applyPatch a (statusPatch a .completed))).1 ?_
    intro hcond
    exact hcond.2 hst

/-- A status update to any target other than `completed` never touches the
ledger. -/
theorem setStatus_not_completed_noop {db : DB} {uid : Option Id} {id : Id}
    {st : AppointmentStatus} {db2 : DB}
    (hst : st ≠ .completed)
    (h : setAppointmentStatus db uid id st = .ok db2) :
    db2.transactions = db.transactions := by
  unfold setAppointmentStatus at h
  cases hf : db.appointments.find? (fun x => x.id == id) with
  | none =>
    rw [hf] at h
    cases h
    rfl
  | some a =>
    rw [hf] at h
    rcases updateAppointmentDb_ok h with ⟨hnone, rfl⟩ | ⟨oldRow, hf2, hts, hchk, rfl⟩
    · rfl
    · refine (handle_transactions _ uid oldRow (applyPatch oldRow (statusPatch a st))).1 ?_
      intro hcond
      exact hst hcond.1

/-!  ## Concrete fixtures

A small directory (one therapist with an assignment to child 10, one
manager, one parent, two children, one service) and short operation runs on
it, used to instantiate the theorems below on concrete inputs. -/

deriving instance DecidableEq for Except

def okOr (r : Except DbErr DB) (d : DB) : DB :=
  match r with
  | .ok x => x
  | .error _ => d

def demoBase : DB :=
  { profiles := [{ id := 1, fullName := "T", role := .therapist },
                 { id := 2, fullName := "M", role := .manager },
                 { id := 20, fullName := "P", role := .parent }]
    children := [{ id := 10, name := "Masha", parentId := some 20 },
                 { id := 11, name := "Petya", parentId := some 21 }]
    therapistChildren := [{ childId := 10, therapistId := 1 }]
    services := [{ id := 100, name := "Speech", durationMin := 30, price := 300 }]
    appointments := []
    transactions := [] }

def demoInputA : AppointmentInput :=
  { childId := 10, specialistId := 1, serviceId := 100, startTime := 600, endTime := 630,
    status := .pending, notes := none, isRecurring := false, recurrenceGroupId := none,
    createdBy := some 2 }

def demoInputC : AppointmentInput :=
  { demoInputA with startTime := 660, endTime := 690 }

/-- Same slot as `demoInputA` (identical interval, child and specialist). -/
def demoInputB : AppointmentInput :=
  { demoInputA with status := .confirmed }

def demoDb1 : DB := okOr (insertAppointment demoBase demoInputA) demoBase

def demoRowA : Appointment := mkAppointment demoInputA 1

def demoDbAC : DB := okOr (insertAppointment demoDb1 demoInputC) demoDb1

def demoRowC : Appointment := mkAppointment demoInputC 2

/-- `demoDb1` after canceling appointment 1. -/
def demoDb2 : DB := okOr (setAppointmentStatus demoDb1 (some 2) 1 .canceled) demoDb1

/-- `demoDb1` after completing appointment 1. -/
def demoDb1c : DB := okOr (setAppointmentStatus demoDb1 (some 2) 1 .completed) demoDb1

/-- `demoDb1c` after a repeated write of `completed` to appointment 1. -/
def demoDb1cc : DB := okOr (setAppointmentStatus demoDb1c (some 2) 1 .completed) demoDb1c

/-!  ## Claims -/

/-- C1: in every state of the appointment store reachable by engine
operations from a booking-free base, no two distinct non-canceled
appointments of one child overlap in their half-open `[start, end)`
intervals, and likewise for one specialist (the two GiST exclusion
constraints); canceled rows are exempt, so after canceling appointment 1 of
`demoDb1`, the overlapping same-slot booking `demoInputB` is accepted. -/
theorem C1_no_overlap :
    (∀ base db, BaseState base → Reachable base db →
      ((∀ a ∈ db.appointments, ∀ b ∈ db.appointments, a.id ≠ b.id →
          a.status ≠ .canceled → b.status ≠ .canceled →
          a.childId = b.childId → ¬ TimeOverlap a b) ∧
       (∀ a ∈ db.appointments, ∀ b ∈ db.appointments, a.id ≠ b.id →
          a.status ≠ .canceled → b.status ≠ .canceled →
          a.specialistId = b.specialistId → ¬ TimeOverlap a b))) ∧
    (setAppointmentStatus demoDb1 (some 2) 1 .canceled = .ok demoDb2 ∧
     rangesOverlap demoInputB.startTime demoInputB.endTime demoRowA.startTime demoRowA.endTime = true ∧
     demoInputB.childId = demoRowA.childId ∧
     demoInputB.specialistId = demoRowA.specialistId ∧
     (insertAppointment demoDb2 demoInputB).isOk = true) := by
  constructor
  · intro base db hb hr
    obtain ⟨hnd, hno, hcu⟩ := invariant_reachable hb hr
    exact ⟨fun a ha b hb2 hne hna hnb hk => hno a ha b hb2 hne hna hnb (Or.inl hk),
           fun a ha b hb2 hne hna hnb hk => hno a ha b hb2 hne hna hnb (Or.inr hk)⟩
  · exact ⟨by decide, by decide, by decide, by decide, by decide⟩

/-- Witness for C1 at a concrete reachable two-booking store: the two
non-canceled same-child bookings of `demoDbAC` do not overlap. -/
theorem C1_no_overlap_witness : ¬ TimeOverlap demoRowA demoRowC := by
  have h1 : insertAppointment demoBase demoInputA = .ok demoDb1 := by decide
  have h2 : insertAppointment demoDb1 demoInputC = .ok demoDbAC := by decide
  have hreach : Reachable demoBase demoDbAC :=
    Reachable.step (Reachable.step Reachable.refl (Step.insertApp h1)) (Step.insertApp h2)
  exact (C1_no_overlap.1 demoBase demoDbAC ⟨rfl, rfl⟩ hreach).1
    demoRowA (by decide) demoRowC (by decide) (by decide) (by decide) (by decide) (by decide)

/-- C2: a status-only update to `completed` on a not-yet-completed
appointment with no existing charge inserts exactly one charge transaction,
whose amount is the service price looked up at completion time, whose date
is the appointment's end time and whose description is built from the
service name, the child name and the formatted start time; a repeated write
of `completed` (from the resulting state, or on an already-completed row)
adds no further transaction, and an update to any other status never touches
the ledger. -/
theorem C2_completion_charge :
    ∀ (db : DB) (uid : Option Id) (id : Id) (a : Appointment) (svc : Service) (c : Child) (db2 : DB),
      db.appointments.find? (fun x => x.id == id) = some a →
      findService db a.serviceId = some svc →
      findChild db a.childId = some c →
      chargeExists db.transactions id = false →
      ((a.status ≠ .completed →
        setAppointmentStatus db uid id .completed = .ok db2 →
        db2.transactions = completionCharge db uid { a with status := .completed } :: db.transactions ∧
        (completionCharge db uid { a with status := .completed }).amount = svc.price ∧
        (completionCharge db uid { a with status := .completed }).date = a.endTime ∧
        (completionCharge db uid { a with status := .completed }).txType = .charge ∧
        (completionCharge db uid { a with status := .completed }).appointmentId = some id ∧
        (completionCharge db uid { a with status := .completed }).description
          = chargeDescription (some svc.name) (some c.name) a.startTime ∧
        (∀ db3, setAppointmentStatus db2 uid id .completed = .ok db3 →
          db3.transactions = db2.transactions)) ∧
       (a.status = .completed →
        setAppointmentStatus db uid id .completed = .ok db2 →
        db2.transactions = db.transactions) ∧
       (∀ (st : AppointmentStatus) (db4 : DB), st ≠ .completed →
        setAppointmentStatus db uid id st = .ok db4 →
        db4.transactions = db.transactions)) := by
  intro db uid id a svc c db2 hf hsvc hchild hex
  have haid : a.id = id := by simpa using List.find?_some hf
  refine ⟨?_, ?_, ?_⟩
  · intro hna h
    obtain ⟨htx, hserv, hfind⟩ := setStatus_completed_spec hf hna hex h
    refine ⟨htx, ?_, rfl, rfl, ?_, ?_, ?_⟩
    · simp [completionCharge, hsvc]
    · simp [completionCharge, haid]
    · simp [completionCharge, hsvc, hchild, chargeDescription]
    · intro db3 h3
      exact setStatus_completed_noop hfind rfl h3
  · intro hst h
    exact setStatus_completed_noop hf hst h
  · intro st db4 hst h
    exact setStatus_not_completed_noop hst h

/-- Witness for C2 on `demoDb1`: completing appointment 1 prepends exactly
the completion charge, and a repeated completion leaves the ledger alone. -/
theorem C2_completion_charge_witness :
    demoDb1c.transactions = completionCharge demoDb1 (some 2) { demoRowA with status := .completed } :: demoDb1.transactions ∧
    (completionCharge demoDb1 (some 2) { demoRowA with status := .completed }).amount = 300 ∧
    demoDb1cc.transactions = demoDb1c.transactions := by
  have h := C2_completion_charge demoDb1 (some 2) 1 demoRowA
    { id := 100, name := "Speech", durationMin := 30, price := 300 }
    { id := 10, name := "Masha", parentId := some 20 } demoDb1c
    (by decide) (by decide) (by decide) (by decide)
  obtain ⟨htx, hamount, -, -, -, -, hrep⟩ := h.1 (by decide) (by decide)
  exact ⟨htx, hamount, hrep demoDb1cc (by decide)⟩

/-- C3: in every reachable state there is at most one charge transaction per
appointment (the `unique(appointment_id, type)` constraint), and a duplicate
completion-charge attempt — the trigger firing while a charge for that
appointment already exists — is a silent no-op on the store, never an
error (`on conflict ... do nothing`). -/
theorem C3_charge_unique :
    (∀ base db, BaseState base → Reachable base db →
      ∀ aid : Id, (db.transactions.filter (fun t => t.appointmentId == some aid && t.txType == .charge)).length ≤ 1) ∧
    (∀ (db : DB) (uid : Option Id) (o n : Appointment),
      chargeExists db.transactions n.id = true →
      handleAppointmentCompletedCharge db uid o n = db) := by
  constructor
  · intro base db hb hr aid
    exact (invariant_reachable hb hr).2.2 aid
  · intro db uid o n hex
    unfold handleAppointmentCompletedCharge
    split
    · simp [hex]
    · rfl

/-- Witness for C3: after completing appointment 1 (which inserted its
charge), at most one charge exists for it, and re-running the trigger on the
completed row changes nothing. -/
theorem C3_charge_unique_witness :
    (demoDb1c.transactions.filter (fun t => t.appointmentId == some 1 && t.txType == .charge)).length ≤ 1 ∧
    handleAppointmentCompletedCharge demoDb1c (some 2) demoRowA { demoRowA with status := .completed } = demoDb1c := by
  have h1 : insertAppointment demoBase demoInputA = .ok demoDb1 := by decide
  have h2 : updateAppointmentDb demoDb1 (some 2) 1 (statusPatch demoRowA .completed) = .ok demoDb1c := by decide
  have hreach : Reachable demoBase demoDb1c :=
    Reachable.step (Reachable.step Reachable.refl (Step.insertApp h1)) (Step.updateApp h2)
  exact ⟨C3_charge_unique.1 demoBase demoDb1c ⟨rfl, rfl⟩ hreach 1,
         C3_charge_unique.2 demoDb1c (some 2) demoRowA { demoRowA with status := .completed } (by decide)⟩

/-- C4: `buildOccurrences` returns exactly the projections onto the seed's
time-of-day of the dates between the seed's date and the end date
(inclusive) whose weekday lies in the selected set, plus always the exact
seed start time; concretely, weekdays {Tuesday = 2, Thursday = 4} from
Monday 2025-01-06 10:00 (epoch minute 28935960 = epoch day 20094) until
2025-01-16 (epoch minute 28949760) yield 2025-01-06 10:00, 2025-01-07 10:00,
2025-01-09 10:00, 2025-01-14 10:00 and 2025-01-16 10:00. -/
theorem C4_buildOccurrences_spec :
    (∀ (start untilT t : Nat) (weekdays : List Nat),
      t ∈ buildOccurrences start untilT weekdays ↔
        (t = start ∨ ∃ d : Nat, start / 1440 ≤ d ∧ d ≤ untilT / 1440 ∧
          jsWeekday d ∈ weekdays ∧ t = d * 1440 + start % 1440)) ∧
    buildOccurrences 28935960 28949760 [2, 4] =
      [28935960, 28937400, 28940280, 28947480, 28950360] := by
  refine ⟨?_, by decide⟩
  intro start untilT t weekdays
  exact mem_buildOccurrences start untilT weekdays t

/-- Witness for C4: the Tuesday 2025-01-07 projection is an occurrence of
the example expansion. -/
theorem C4_buildOccurrences_spec_witness :
    28937400 ∈ buildOccurrences 28935960 28949760 [2, 4] :=
  (C4_buildOccurrences_spec.1 28935960 28949760 28937400 [2, 4]).mpr
    (Or.inr ⟨20095, by decide, by decide, by decide, by decide⟩)

/-!  C5 fixtures: a ten-Monday recurring request (2025-01-06 .. 2025-03-10
at 10:00, 30 minutes) against a store holding one confirmed booking of the
same specialist on the third Monday (2025-01-20 10:00–10:30). -/

def demo5Blocker : Appointment :=
  { id := 500, childId := 11, specialistId := 1, serviceId := 100,
    startTime := 28956120, endTime := 28956150, status := .confirmed, notes := none,
    isRecurring := false, recurrenceGroupId := none, createdBy := some 2 }

def demo5Db : DB := { demoBase with appointments := [demo5Blocker] }

def demo5V : RecurringValues :=
  { childId := 10, specialistId := 1, serviceId := 100, durationMin := 30,
    status := .confirmed, notes := none, createdBy := some 2 }

def demo5Result : DB × List Nat × Except String Unit :=
  createRecurringSeries demo5Db demo5V 77 28935960 29026080 [1]

/-- The one-occurrence run used to instantiate the C5 theorem. -/
def demo5One : DB × List Nat × Option DbErr :=
  runOccurrences demo5Db demo5V 77 [28935960] []

/-- C5 counterexample: in the ten-Monday run exactly one occurrence
conflicts, the other nine are still created and the failure list holds
exactly that timestamp — but what `upsertMutation` returns to its caller is
a thrown exception (`Except.error`), not a success-with-partial-failure
value, contradicting the claim that the failures are reported as a
structured list rather than a single exception. -/
theorem C5_counterexample :
    (buildOccurrences 28935960 29026080 [1]).length = 10 ∧
    demo5Result.1.appointments.length = demo5Db.appointments.length + 9 ∧
    demo5Result.2.1.length = 1 ∧
    demo5Result.2.2.isOk = false := by decide

/-- C5 amended: each occurrence is inserted independently and a conflict
does not abort the remaining occurrences — when the loop finishes without a
non-conflict error, every occurrence was either persisted or recorded in the
failure list, and the ledger is untouched; if any occurrence failed, the
operation surfaces one thrown error whose message names the first failed
occurrence's date and time (the created occurrences remain persisted);
concretely, with one of ten Mondays conflicting, nine rows are created, the
failure list is exactly the conflicting timestamp, and the thrown message
names 2025-01-20 10:00. -/
theorem C5_partial_failure :
    (∀ (occs : List Nat) (db : DB) (v : RecurringValues) (gid : Id) (db2 : DB) (f : List Nat),
      runOccurrences db v gid occs [] = (db2, f, none) →
      db2.appointments.length + f.length = db.appointments.length + occs.length ∧
      db2.transactions = db.transactions) ∧
    (∀ (f : Nat) (rest : List Nat),
      recurringOutcome (f :: rest) none =
        .error ("Серия создана частично. Есть конфликты, например: " ++ formatRuDateTime f)) ∧
    ((buildOccurrences 28935960 29026080 [1]).length = 10 ∧
     demo5Result.1.appointments.length = demo5Db.appointments.length + 9 ∧
     demo5Result.2.1 = [28956120] ∧
     demo5Result.2.2 = .error ("Серия создана частично. Есть конфликты, например: 20 января 2025 г. 10:00")) := by
  refine ⟨?_, fun f rest => rfl, by decide, by decide, by decide, by decide⟩
  intro occs db v gid db2 f h
  obtain ⟨extra, hfe, hlen, htx⟩ := runOccurrences_total v gid occs db [] db2 f h
  subst hfe
  constructor
  · simpa using hlen
  · exact htx

/-- Witness for C5 on a one-occurrence run that succeeds: the single
occurrence is persisted and nothing is recorded as failed. -/
theorem C5_partial_failure_witness :
    demo5One.1.appointments.length + demo5One.2.1.length = demo5Db.appointments.length + 1 ∧
    demo5One.1.transactions = demo5Db.transactions :=
  C5_partial_failure.1 [28935960] demo5Db demo5V 77 demo5One.1 demo5One.2.1 (by decide)

/-!  C6 fixtures: a store holding one already-completed appointment. -/

def demo6Row : Appointment :=
  { id := 1, childId := 10, specialistId := 1, serviceId := 100,
    startTime := 600, endTime := 630, status := .completed, notes := none,
    isRecurring := false, recurrenceGroupId := none, createdBy := some 2 }

def demo6Db : DB := { demoBase with appointments := [demo6Row] }

/-- C6 counterexample: the status update operation accepts the transition
completed → pending, an edge outside the claimed state machine, so
completed (and likewise canceled / no_show) is not terminal in the code. -/
theorem C6_counterexample :
    demo6Row.status = .completed ∧
    demo6Row ∈ demo6Db.appointments ∧
    (setAppointmentStatus demo6Db (some 2) 1 .pending).isOk = true := by decide

/-- C6 amended: the status update operation enforces no state-machine
restriction at all — for an existing appointment, an update to any target
status is accepted whenever the write passes the store's check, foreign-key
and exclusion constraints, regardless of the current status. -/
theorem C6_no_transition_guard :
    ∀ (db : DB) (uid : Option Id) (id : Id) (a : Appointment) (st : AppointmentStatus),
      db.appointments.find? (fun x => x.id == id) = some a →
      a.startTime < a.endTime →
      db.children.any (fun c => c.id == a.childId) = true →
      db.profiles.any (fun pr => pr.id == a.specialistId) = true →
      db.services.any (fun sv => sv.id == a.serviceId) = true →
      violatesExclusion (db.appointments.filter (fun x => !(x.id == id))) { a with status := st } = false →
      (setAppointmentStatus db uid id st).isOk = true := by
  intro db uid id a st hf hts hc hp hs hx
  unfold setAppointmentStatus
  simp only [hf]
  unfold updateAppointmentDb
  simp only [hf, applyPatch_statusPatch]
  rw [if_neg (fun hcon => absurd hts (Nat.not_lt.mpr hcon)),
      if_neg (by simp [hc]), if_neg (by simp [hp]), if_neg (by simp [hs]),
      if_neg (by simp [hx])]
  rfl

/-- Witness for C6: the completed appointment of `demo6Db` is reopened to
`pending` by a plain status update. -/
theorem C6_no_transition_guard_witness :
    (setAppointmentStatus demo6Db (some 2) 1 .pending).isOk = true :=
  C6_no_transition_guard demo6Db (some 2) 1 demo6Row .pending
    (by decide) (by decide) (by decide) (by decide) (by decide) (by decide)

/-- C7 counterexample: a specialist with an active assignment to child 10
satisfies `can_write_child`, yet the appointments insert policy
(`appointments_insert_admin_or_manager`) rejects them, so CanWrite is not
sufficient for the write to pass. -/
theorem C7_counterexample :
    canWriteChild demoBase (some 1) 10 = true ∧
    appointmentsInsertPolicy demoBase (some 1) = false := by decide

/-- C7 amended: appointment creation is gated by the insert policy, which
passes exactly for admin/manager; since every admin/manager also satisfies
`can_write_child`, a row is persisted only if CanWrite holds — but CanWrite
is not sufficient: a specialist with an active assignment (CanWrite true) is
still rejected on insert. -/
theorem C7_insert_requires_elevated :
    ∀ (db : DB) (uid : Option Id) (cid : Id),
      (appointmentsInsertPolicy db uid = true → canWriteChild db uid cid = true) ∧
      appointmentsInsertPolicy db uid = isAdminOrManager db uid := by
  intro db uid cid
  refine ⟨?_, rfl⟩
  intro h
  unfold canWriteChild
  rw [show isAdminOrManager db uid = true from h]
  rfl

/-- Witness for C7: the manager (profile 2) passes the insert policy and
therefore CanWrite. -/
theorem C7_insert_requires_elevated_witness :
    canWriteChild demoBase (some 2) 10 = true :=
  (C7_insert_requires_elevated demoBase (some 2) 10).1 (by decide)

/-- C8: a registered guardian of a child who holds no elevated role, no care
assignment and is nobody's covering specialist cannot write — CanWrite is
false and every write policy (appointment insert/update/delete, transaction
insert/update/delete) rejects them — while CanRead is true and the read
policies accept them for that child's appointments and transactions. -/
theorem C8_guardian_read_only :
    ∀ (db : DB) (u cid : Id) (c : Child),
      c ∈ db.children → c.id = cid → c.parentId = some u →
      isAdminOrManager db (some u) = false →
      (∀ tc ∈ db.therapistChildren, tc.therapistId ≠ u) →
      (∀ a ∈ db.appointments, a.specialistId ≠ u) →
      ((canWriteChild db (some u) cid = false ∧
        appointmentsInsertPolicy db (some u) = false ∧
        appointmentsDeletePolicy db (some u) = false ∧
        transactionsUpdatePolicy db (some u) = false ∧
        transactionsDeletePolicy db (some u) = false ∧
        (∀ a ∈ db.appointments, appointmentsUpdatePolicy db (some u) a = false) ∧
        (∀ t : Transaction, transactionsInsertPolicy db (some u) t = false)) ∧
       (canReadChild db (some u) cid = true ∧
        (∀ a ∈ db.appointments, a.childId = cid → appointmentsSelectPolicy db (some u) a = true) ∧
        (∀ t : Transaction, t.childId = cid → transactionsSelectPolicy db (some u) t = true))) := by
  intro db u cid c hc hcid hcp hadm htc hsp
  have htcf : db.therapistChildren.any (fun tc => tc.childId == cid && tc.therapistId == u) = false := by
    rw [List.any_eq_false]
    intro tc htcm
    simp [htc tc htcm]
  have hspf : ∀ oid : Option Id, db.appointments.any (fun a => some a.id == oid && some a.specialistId == some u) = false := by
    intro oid
    rw [List.any_eq_false]
    intro a ham
    simp [hsp a ham]
  have hread : canReadChild db (some u) cid = true := by
    have hpar : db.children.any (fun x => x.id == cid && x.parentId == some u) = true :=
      List.any_eq_true.mpr ⟨c, hc, by simp [hcid, hcp]⟩
    simp [canReadChild, hpar]
  refine ⟨⟨?_, hadm, hadm, hadm, hadm, ?_, ?_⟩, hread, ?_, ?_⟩
  · simp [canWriteChild, hadm, htcf]
  · intro a ham
    have hnspec : (some a.specialistId == (some u : Option Id)) = false := by
      simp [hsp a ham]
    simp [appointmentsUpdatePolicy, hadm, hnspec]
  · intro t
    simp [transactionsInsertPolicy, hadm]
    intro h1 h2 x hx h3
    exact hsp x hx
  · intro a ham hac
    simp [appointmentsSelectPolicy, hac, hread]
  · intro t htc2
    simp [transactionsSelectPolicy, htc2, hread]

/-- Witness for C8: the parent (profile 20) of child 10 on the one-booking
store `demoDb1`. -/
theorem C8_guardian_read_only_witness :
    canWriteChild demoDb1 (some 20) 10 = false ∧
    canReadChild demoDb1 (some 20) 10 = true ∧
    appointmentsInsertPolicy demoDb1 (some 20) = false ∧
    appointmentsUpdatePolicy demoDb1 (some 20) demoRowA = false ∧
    appointmentsSelectPolicy demoDb1 (some 20) demoRowA = true := by
  have h := C8_guardian_read_only demoDb1 20 10 { id := 10, name := "Masha", parentId := some 20 }
    (by decide) rfl rfl (by decide) (by decide) (by decide)
  exact ⟨h.1.1, h.2.1, h.1.2.1, h.1.2.2.2.2.2.1 demoRowA (by decide),
         h.2.2.1 demoRowA (by decide) rfl⟩

/-- The transactions shown by the C9 example: payments summing to 500 and
charges summing to 300. -/
def demo9Txs : List Transaction :=
  [{ id := 1, childId := 10, appointmentId := none, amount := 200, txType := .payment,
     date := 0, description := "cash", createdBy := some 2 },
   { id := 2, childId := 10, appointmentId := none, amount := 300, txType := .payment,
     date := 1, description := "card", createdBy := some 2 },
   { id := 3, childId := 10, appointmentId := some 1, amount := 300, txType := .charge,
     date := 2, description := "lesson", createdBy := some 2 }]

/-- C9: the balance computed by `FinanceManager` equals the sum of payment
amounts minus the sum of charge amounts, recomputed as a pure function of
the transaction list (the schema stores no balance column); with payments
summing to 500 and charges to 300 the balance is 200. -/
theorem C9_balance :
    (∀ txs : List Transaction,
      (computeTotals txs).charges = sumCharges txs ∧
      (computeTotals txs).payments = sumPayments txs ∧
      (computeTotals txs).balance = sumPayments txs - sumCharges txs) ∧
    computeTotals demo9Txs = { charges := 300, payments := 500, balance := 200 } := by
  refine ⟨?_, by decide⟩
  intro txs
  rw [computeTotals_spec]
  exact ⟨rfl, rfl, rfl⟩

/-!  C10 fixture: creating an appointment whose initial status is already
`completed`. -/

def demoInput10 : AppointmentInput := { demoInputA with status := .completed }

def demo10Db : DB := okOr (insertAppointment demoBase demoInput10) demoBase

/-- C10: the create form offers `completed` as an initial status, yet an
insert — even with initial status `completed` — leaves the transaction
store unchanged, because `appointments_charge_on_complete` is declared
`after update of status`; a reschedule (times-only update) does not touch
the ledger either. -/
theorem C10_insert_no_charge :
    (.completed ∈ statusOptions) ∧
    (∀ (db : DB) (i : AppointmentInput) (db2 : DB), i.status = .completed →
      insertAppointment db i = .ok db2 → db2.transactions = db.transactions) ∧
    (∀ (db : DB) (id : Id) (s e : Nat) (db2 : DB),
      rescheduleAppointment db id s e = .ok db2 → db2.transactions = db.transactions) := by
  refine ⟨by decide, ?_, ?_⟩
  · intro db i db2 _ h
    exact (insertAppointment_ok_counts h).2
  · intro db id s e db2 h
    rcases rescheduleAppointment_ok h with ⟨_, rfl⟩ | ⟨oldRow, _, _, rfl⟩
    · rfl
    · rfl

/-- Witness for C10: inserting a completed-from-the-start booking into
`demoBase` leaves the (empty) ledger empty. -/
theorem C10_insert_no_charge_witness :
    demo10Db.transactions = demoBase.transactions :=
  C10_insert_no_charge.2.1 demoBase demoInput10 demo10Db rfl (by decide)

end CRM
